import Mathlib

/-!
Verification of the vessel-migration subsystem
(`src/controllers/migration.controller.js`) of the logistics backend.

The five HTTP handlers (analyze, execute with optional dry run, verify,
rollback, cleanup) are shallowly embedded as pure functions over an explicit
store of shipment and vessel documents.  MongoDB documents may lack a field,
hold an explicit `null`, or hold a value; the embedding keeps these three
cases apart because the controller filters distinguish them.

Two translation notes, both forced by the source text:

* The filter literal `{ $exists: true, $ne: null, $ne: "" }` (used for
  `vesselName` in analyze/execute/verify/cleanup) is a JavaScript object with
  a duplicate `$ne` key.  JavaScript keeps the last duplicate, so the filter
  MongoDB receives is `{ $exists: true, $ne: "" }`: a field holding an
  explicit `null` passes it.  The embedding models the effective filter.

* In the dry-run branch the grouping keys use `$toUpper` only, while the
  real-run grouping wraps the fields in `$trim` first; the two groupings are
  therefore modelled by distinct key functions.

`ApiResponse` / `ApiError` (src/utils) are not among the provided sources;
their status codes are modelled from the spec (success envelope is 200,
`badRequest` is a 4xx refusal, taken as 400).
-/

namespace Migration

/-- ASCII uppercasing, the semantics of the aggregation `$toUpper`
(implemented over the character list so that it computes by kernel
reduction). -/
def strUpper (s : String) : String :=
  ⟨s.data.map Char.toUpper⟩

/-- Whitespace trimming at both ends, the semantics of the aggregation
`$trim` with its default character set and of JavaScript `trim()`
(implemented over the character list so that it computes by kernel
reduction). -/
def strTrim (s : String) : String :=
  ⟨((s.data.dropWhile Char.isWhitespace).reverse.dropWhile
      Char.isWhitespace).reverse⟩

/-- A BSON field that may be absent from the document, hold an explicit
`null`, or hold a string value. -/
inductive MField where
  | absent : MField
  | null : MField
  | val : String → MField
deriving DecidableEq, Repr

/-- A shipment document.  `sid` stands for the Mongo `_id`.  `vesselId` is
`none` when the field is absent, `some none` when it holds an explicit
`null`, and `some (some i)` when it references vessel `i`. -/
structure Shipment where
  sid : Nat
  vesselName : MField
  jobNumber : MField
  pod : MField
  vesselId : Option (Option Nat)
deriving DecidableEq, Repr

/-- A vessel document. `vid` stands for the Mongo `_id`.  The schema requires
`vesselName`; `jobNumber` and `pod` may be absent. -/
structure Vessel where
  vid : Nat
  vesselName : String
  jobNumber : MField
  pod : MField
deriving DecidableEq, Repr

/-- The two collections the migration touches, plus a counter supplying fresh
vessel ids. -/
structure Store where
  shipments : List Shipment
  vessels : List Vessel
  nextVid : Nat
deriving DecidableEq, Repr

/-- Aggregation `$toUpper` on a possibly missing field: `$toUpper` of a
missing or null argument is `""` (which also makes the `$ifNull [.., ""]`
wrappers in the source redundant). -/
def mToUpper : MField → String
  | .val s => strUpper s
  | _ => ""

/-- Aggregation `$toUpper ∘ $trim` as used by the real-run grouping: `$trim`
of a missing or null input is null, and `$toUpper` of null is `""`. -/
def mTrimUpper : MField → String
  | .val s => strUpper (strTrim s)
  | _ => ""

/-- The effective `vesselName` filter of the controller,
`{ $exists: true, $ne: "" }`: the written `$ne: null` is a duplicate object
key that JavaScript drops, so an explicit null passes (it exists and is not
equal to the string `""`). -/
def vesselNamePresent : MField → Bool
  | .absent => false
  | .null => true
  | .val s => s != ""

/-- The filter `{ vesselName: {$exists:true, $ne:""}, vesselId: {$exists:false} }` —
the filter selecting shipments still to be migrated. -/
def isUnmigrated (s : Shipment) : Bool :=
  vesselNamePresent s.vesselName && s.vesselId.isNone

/-- The filter `{ vesselId: { $exists: true, $ne: null } }` selecting
already migrated shipments. -/
def isMigrated (s : Shipment) : Bool :=
  match s.vesselId with
  | some (some _) => true
  | _ => false

/-- The shipments the migration queries treat as unmigrated. -/
def unmigratedOf (st : Store) : List Shipment :=
  st.shipments.filter isUnmigrated

/-- A `$group` key: the normalized `(vesselName, jobNumber, pod)` tuple. -/
structure GKey where
  vesselName : String
  jobNumber : String
  pod : String
deriving DecidableEq, Repr

/-- Grouping key of the analyze phase and of the dry-run branch:
uppercase only, no trim. -/
def analyzeKey (s : Shipment) : GKey :=
  ⟨mToUpper s.vesselName, mToUpper s.jobNumber, mToUpper s.pod⟩

/-- Grouping key of the real execute run: trim, then uppercase. -/
def execKey (s : Shipment) : GKey :=
  ⟨mTrimUpper s.vesselName, mTrimUpper s.jobNumber, mTrimUpper s.pod⟩

/-- The distinct keys occurring in a shipment list (the `_id`s produced by
`$group`; Mongo emits them in an unspecified order, modelled here by first
occurrence from the right). -/
def uniqueKeys (key : Shipment → GKey) : List Shipment → List GKey
  | [] => []
  | s :: rest =>
    let r := uniqueKeys key rest
    if key s ∈ r then r else key s :: r

/-- Result shape of the analyze endpoint (the controller additionally sorts
`vesselCombinations` by descending count; no claim depends on that order and
it is not modelled). -/
structure AnalyzeReport where
  unmigratedShipments : Nat
  migratedShipments : Nat
  uniqueVesselCombinations : Nat
  existingVessels : Nat
  vesselCombinations : List (GKey × Nat)
deriving DecidableEq, Repr

/-- The handler of `GET /migration/analyze`. -/
def analyzeMigration (st : Store) : AnalyzeReport :=
  let unmig := unmigratedOf st
  let ks := uniqueKeys analyzeKey unmig
  { unmigratedShipments := unmig.length
    migratedShipments := (st.shipments.filter isMigrated).length
    uniqueVesselCombinations := ks.length
    existingVessels := st.vessels.length
    vesselCombinations :=
      ks.map fun k => (k, (unmig.filter fun s => analyzeKey s == k).length) }

/-- JavaScript `x || null` on a string: `""` is falsy. -/
def orNull (s : String) : Option String :=
  if s == "" then none else some s

/-- One row of the dry-run `details` array. -/
structure DryDetail where
  vesselName : String
  jobNumber : Option String
  pod : Option String
  shipmentCount : Nat
deriving DecidableEq, Repr

/-- Body of the dry-run response. -/
structure DryRunReport where
  vesselsToCreate : Nat
  totalShipmentsToMigrate : Nat
  details : List DryDetail
deriving DecidableEq, Repr

/-- The dry-run branch of `POST /migration/execute?dryRun=true`: the same
grouping as analyze (uppercase, no trim), zero writes. -/
def dryRunReport (st : Store) : DryRunReport :=
  let unmig := unmigratedOf st
  let ks := uniqueKeys analyzeKey unmig
  let counts := ks.map fun k => (k, (unmig.filter fun s => analyzeKey s == k).length)
  { vesselsToCreate := ks.length
    totalShipmentsToMigrate := counts.foldl (fun sum v => sum + v.2) 0
    details := counts.map fun v => ⟨v.1.vesselName, orNull v.1.jobNumber, orNull v.1.pod, v.2⟩ }

/-- One entry of the migration log `errors[]` array. -/
structure MigError where
  vesselName : String
  jobNumber : Option String
  pod : Option String
  error : String
deriving DecidableEq, Repr

/-- The in-memory migration log built by a real execute run. -/
structure MigLog where
  vesselsCreated : Nat
  shipmentsUpdated : Nat
  errors : List MigError
  vesselMap : List (String × Nat)
deriving DecidableEq, Repr

def emptyLog : MigLog := ⟨0, 0, [], []⟩

/-- The `Vessel.findOne` of the execute loop.  With a truthy `jobNumber` the
filter is `{vesselName, jobNumber}`; otherwise
`{vesselName, $or: [{jobNumber: null}, {jobNumber: ""}, {jobNumber: {$exists:false}}]}`
(and a bare `jobNumber: null` filter matches null and missing alike). -/
def vesselMatches (name : String) (job : Option String) (v : Vessel) : Bool :=
  v.vesselName == name &&
    match job with
    | some j => v.jobNumber == MField.val j
    | none =>
        v.jobNumber == MField.null || v.jobNumber == MField.val "" ||
          v.jobNumber == MField.absent

/-- Source line `if (x && x.trim()) data.f = x.trim()` — optional vessel fields are
stored trimmed and only when non-empty, otherwise omitted. -/
def optField : Option String → MField
  | some j => if strTrim j == "" then .absent else .val (strTrim j)
  | none => .absent

/-- The `Vessel.findOne` / `new Vessel(...).save()` step of the per-group
loop: look the combination up, create (and count) a fresh vessel document
when nothing matches. -/
def findOrCreate (st : Store) (log : MigLog) (name : String)
    (job pod : Option String) : Store × MigLog × Vessel :=
  match st.vessels.find? (vesselMatches name job) with
  | some v => (st, log, v)
  | none =>
      let nv : Vessel :=
        { vid := st.nextVid
          vesselName := name
          jobNumber := optField job
          pod := optField pod }
      ({ st with vessels := st.vessels ++ [nv], nextVid := st.nextVid + 1 },
       { log with vesselsCreated := log.vesselsCreated + 1 }, nv)

/-- The updater applied to each shipment by the conditional bulk update
`updateMany({_id: {$in: ids}, vesselId: {$exists: false}}, {$set: {vesselId}})`. -/
def setVesselId (ids : List Nat) (vid : Nat) (s : Shipment) : Shipment :=
  if ids.contains s.sid && s.vesselId.isNone then
    { s with vesselId := some (some vid) }
  else s

/-- The bulk update of one group, accumulating `modifiedCount` into the
log. -/
def updateGroup (st : Store) (log : MigLog) (ids : List Nat) (vid : Nat) :
    Store × MigLog :=
  let modified := st.shipments.filter fun s =>
    ids.contains s.sid && s.vesselId.isNone
  ({ st with shipments := st.shipments.map (setVesselId ids vid) },
   { log with shipmentsUpdated := log.shipmentsUpdated + modified.length })

/-- The body of the per-group loop of the real execute run: find or create
the vessel for the group key, record it in `vesselMap`, then set `vesselId`
on the group shipments that still lack one.  `fail` injects a store fault
for the whole group (anything thrown inside the per-group `try` block); the
`catch` records it in `errors[]` and leaves the loop running. -/
def processGroup (fail : GKey → Option String) (st : Store) (log : MigLog)
    (k : GKey) (ids : List Nat) : Store × MigLog :=
  let vesselName := k.vesselName
  let jobNumber := orNull k.jobNumber
  let pod := orNull k.pod
  match fail k with
  | some msg =>
      (st, { log with errors := log.errors ++ [⟨vesselName, jobNumber, pod, msg⟩] })
  | none =>
    match findOrCreate st log vesselName jobNumber pod with
    | (st1, log1, v) =>
      let mapKey := vesselName ++ "_" ++ jobNumber.getD "" ++ "_" ++ pod.getD ""
      updateGroup st1
        { log1 with vesselMap := log1.vesselMap ++ [(mapKey, v.vid)] } ids v.vid

/-- Sequential processing of the grouped combinations. -/
def runGroups (fail : GKey → Option String) :
    List (GKey × List Nat) → Store × MigLog → Store × MigLog
  | [], p => p
  | g :: gs, p => runGroups fail gs (processGroup fail p.1 p.2 g.1 g.2)

/-- The `$group` output of the real run: each distinct trimmed-uppercased
key together with the `_id`s pushed for it. -/
def execGroups (st : Store) : List (GKey × List Nat) :=
  let unmig := unmigratedOf st
  (uniqueKeys execKey unmig).map fun k =>
    (k, (unmig.filter fun s => execKey s == k).map (·.sid))

/-- The real (non-dry-run) execute migration, parametrized by the per-group
fault oracle. -/
def executeRealWith (fail : GKey → Option String) (st : Store) : Store × MigLog :=
  runGroups fail (execGroups st) (st, emptyLog)

/-- The real execute run in which every per-group store operation succeeds. -/
def executeReal (st : Store) : Store × MigLog :=
  executeRealWith (fun _ => none) st

/-- HTTP outcome of `POST /migration/execute`.  Modelled from the spec:
`ApiResponse.success` (src/utils, not among the sources) carries status 200
per the endpoint table of §6 and the PartialFailure rule of §7. -/
inductive ExecResult where
  | dry (statusCode : Nat) (report : DryRunReport)
  | real (statusCode : Nat) (log : MigLog)
deriving DecidableEq, Repr

/-- The handler of `POST /migration/execute`: dispatch on `dryRun === "true"`, returning
the response and the resulting store. -/
def executeMigration (dryRun : Option String) (fail : GKey → Option String)
    (st : Store) : ExecResult × Store :=
  if dryRun == some "true" then
    (.dry 200 (dryRunReport st), st)
  else
    let p := executeRealWith fail st
    (.real 200 p.2, p.1)

/-- The match stage of the verify sample:
`vesselId: {$exists:true,$ne:null}`, `vesselName: {$exists:true,$ne:null}`. -/
def sampleMatchFilter (s : Shipment) : Bool :=
  isMigrated s &&
    match s.vesselName with
    | .val _ => true
    | _ => false

/-- The `vesselId` values of the migrated shipments.  The controller wraps
them in `new Set(...)`, but the values are distinct `ObjectId` objects and a
JavaScript `Set` deduplicates objects by reference, so duplicates survive;
the embedding keeps the plain list. -/
def migratedIds (st : Store) : List Nat :=
  (st.shipments.filter isMigrated).filterMap fun s =>
    match s.vesselId with
    | some (some i) => some i
    | _ => none

/-- Referenced vessel ids with no matching vessel document. -/
def orphanedIds (st : Store) : List Nat :=
  (migratedIds st).filter fun i => !(st.vessels.any fun v => v.vid == i)

/-- Per-sample integrity comparison:
`$eq [$toUpper "$vesselName", $toUpper "$vessel.vesselName"]` after a
`$lookup` on `vesselId` with `preserveNullAndEmptyArrays`, so a missing
vessel compares as `""`. -/
def sampleOk (st : Store) (s : Shipment) : Bool :=
  let vesselUpper :=
    match s.vesselId with
    | some (some i) =>
        match st.vessels.find? (fun v => v.vid == i) with
        | some v => strUpper v.vesselName
        | none => ""
    | _ => ""
  mToUpper s.vesselName == vesselUpper

/-- Body of the verify response. -/
structure VerifyReport where
  unmigratedShipments : Nat
  migratedShipments : Nat
  orphanedVesselIds : Nat
  samplesChecked : Nat
  mismatches : Nat
  status : String
deriving DecidableEq, Repr

/-- The handler of `GET /migration/verify`.  The `$sample` stage draws a random subset of
the match-stage shipments; the drawn subset is passed in explicitly. -/
def verifyMigration (st : Store) (sample : List Shipment) : VerifyReport :=
  let unmigrated := (unmigratedOf st).length
  let migrated := (st.shipments.filter isMigrated).length
  let orphanedCount := (orphanedIds st).length
  let mismatches := (sample.filter fun s => !(sampleOk st s)).length
  { unmigratedShipments := unmigrated
    migratedShipments := migrated
    orphanedVesselIds := orphanedCount
    samplesChecked := Nat.min 10 migrated
    mismatches := mismatches
    status :=
      if unmigrated == 0 && orphanedCount == 0 && mismatches == 0 then
        "PASSED"
      else
        "ISSUES_FOUND" }

/-- HTTP outcome of `POST /migration/rollback`. -/
inductive RollbackResult where
  | preview (statusCode : Nat) (shipmentsToRollback : Nat)
  | rolledBack (statusCode : Nat) (shipmentsRolledBack : Nat)
deriving DecidableEq, Repr

/-- Removal of `vesselId` via `$unset` on the shipments matching
`{vesselId: {$exists:true, $ne:null}}`. -/
def rollbackShip (s : Shipment) : Shipment :=
  if isMigrated s then { s with vesselId := none } else s

/-- The handler of `POST /migration/rollback`: without `confirm=true` only a preview count;
with it, remove `vesselId` from every migrated shipment, vessels untouched. -/
def rollbackMigration (confirm : Option String) (st : Store) :
    RollbackResult × Store :=
  if !(confirm == some "true") then
    (.preview 200 (st.shipments.filter isMigrated).length, st)
  else
    (.rolledBack 200 (st.shipments.filter isMigrated).length,
     { st with shipments := st.shipments.map rollbackShip })

/-- HTTP outcome of `POST /migration/cleanup`.  Modelled from the spec:
`ApiError.badRequest` (src/utils, not among the sources) surfaces the
PreconditionFailed refusal of §7 as a 4xx, taken as 400. -/
inductive CleanupResult where
  | errorResp (statusCode : Nat) (message : String)
  | preview (statusCode : Nat) (withVesselName withPod withJobNumber : Nat)
  | cleaned (statusCode : Nat) (shipmentsUpdated : Nat)
deriving DecidableEq, Repr

/-- The preview filters `{f: {$exists:true, $ne:null}}`: the field holds a
string value (no duplicate-key collapse here, null is excluded). -/
def fieldPresent : MField → Bool
  | .val _ => true
  | _ => false

/-- Stripping the three legacy fields from one shipment. -/
def stripLegacy (s : Shipment) : Shipment :=
  { s with vesselName := .absent, jobNumber := .absent, pod := .absent }

/-- Whether the cleanup `$unset` actually modifies the document. -/
def hasLegacyField (s : Shipment) : Bool :=
  !(s.vesselName == MField.absent) || !(s.jobNumber == MField.absent) ||
    !(s.pod == MField.absent)

/-- The handler of `POST /migration/cleanup`.  `verifyFirst` defaults to `"true"` by the
destructuring default; when effective, a positive unmigrated count is
refused with a 400 before anything else; absent `confirm=true` only a
preview of the legacy-field counts is returned; otherwise the three legacy
fields are `$unset` from every shipment. -/
def cleanupOldFields (confirm verifyFirst : Option String) (st : Store) :
    CleanupResult × Store :=
  let vf := verifyFirst.getD "true"
  let unmigrated := (unmigratedOf st).length
  if vf == "true" && decide (0 < unmigrated) then
    (.errorResp 400
      ("Cannot cleanup: " ++ toString unmigrated ++
        " shipments are not yet migrated. Run migration first."), st)
  else if !(confirm == some "true") then
    (.preview 200
      (st.shipments.filter fun s => fieldPresent s.vesselName).length
      (st.shipments.filter fun s => fieldPresent s.pod).length
      (st.shipments.filter fun s => fieldPresent s.jobNumber).length, st)
  else
    (.cleaned 200 (st.shipments.filter hasLegacyField).length,
     { st with shipments := st.shipments.map stripLegacy })

/-- Recognizer used to state that a cleanup outcome is not a preview. -/
def CleanupResult.isPreview : CleanupResult → Bool
  | .preview .. => true
  | _ => false

/-! ### Concrete stores used by witnesses and counterexamples -/

def sW2a : Shipment := ⟨0, .val "ever given ", .null, .absent, none⟩

def sW2b : Shipment := ⟨1, .val "EVER GIVEN", .val "", .val "", none⟩

def stW2 : Store := ⟨[sW2a, sW2b], [], 0⟩

def stW7 : Store :=
  ⟨[⟨0, .val "BAD", .absent, .absent, none⟩,
    ⟨1, .val "GOOD", .absent, .absent, none⟩], [], 0⟩

def failW7 : GKey → Option String :=
  fun k => if k.vesselName == "BAD" then some "boom" else none

/-- A store on which the dry run and the real run group differently: the
dry-run keys are not trimmed, so a leading blank splits a group. -/
def stC3 : Store :=
  ⟨[⟨0, .val "EVER GIVEN", .absent, .absent, none⟩,
    ⟨1, .val " EVER GIVEN", .absent, .absent, none⟩], [], 0⟩

def stW3 : Store :=
  ⟨[⟨0, .val "EVER GIVEN", .val "J1", .absent, none⟩,
    ⟨1, .val "EVER GIVEN", .val "J1", .absent, none⟩,
    ⟨2, .val "EVER GIVEN", .null, .absent, none⟩], [], 0⟩

/-- The VesselFree state as the spec words it: `vesselName` empty or
absent (an explicit null is neither). -/
def isVesselFree (s : Shipment) : Bool :=
  s.vesselName == MField.absent || s.vesselName == MField.val ""

/-- How many of the three migration-window states classify a shipment. -/
def stateCount (s : Shipment) : Nat :=
  (if isUnmigrated s then 1 else 0) + (if isMigrated s then 1 else 0) +
    (if isVesselFree s then 1 else 0)

def stW4 : Store := ⟨[⟨0, .val "A", .absent, .absent, none⟩], [], 0⟩

def sW5 : Shipment := ⟨0, .val "A", .absent, .absent, some (some 7)⟩

def stW5 : Store := ⟨[sW5], [⟨7, "A", .absent, .absent⟩], 8⟩

def sW6 : Shipment := ⟨0, .val "A", .absent, .absent, some (some 99)⟩

def stW6 : Store := ⟨[sW6], [], 0⟩

def stC8 : Store := ⟨[⟨0, MField.null, .absent, .absent, none⟩], [], 0⟩

def stC9 : Store := ⟨[⟨0, .val "A", .absent, .absent, none⟩], [], 0⟩

def sC10 : Shipment := ⟨0, .val "EVER GIVEN", .absent, .absent, some none⟩

/-! ### Generic lemmas about the grouping combinators -/

theorem length_filter_not_add {α : Type} (p : α → Bool) (l : List α) :
    (l.filter p).length + (l.filter fun a => !(p a)).length = l.length := by
  induction l with
  | nil => rfl
  | cons a t ih => by_cases h : p a <;> simp [List.filter_cons, h, ← ih] <;> omega

theorem mem_uniqueKeys {key : Shipment → GKey} {l : List Shipment} {k : GKey} :
    k ∈ uniqueKeys key l ↔ ∃ s ∈ l, key s = k := by
  induction l with
  | nil => simp [uniqueKeys]
  | cons a rest ih =>
    simp only [uniqueKeys]
    split
    next h =>
      constructor
      · intro hmem
        rcases ih.mp hmem with ⟨s, hs, hk⟩
        exact ⟨s, List.mem_cons_of_mem _ hs, hk⟩
      · rintro ⟨s, hs, hk⟩
        rcases List.mem_cons.mp hs with heq | hs2
        · exact hk ▸ heq ▸ h
        · exact ih.mpr ⟨s, hs2, hk⟩
    next h =>
      constructor
      · intro hmem
        rcases List.mem_cons.mp hmem with heq | hmem2
        · exact ⟨a, List.mem_cons_self _ _, heq.symm⟩
        · rcases ih.mp hmem2 with ⟨s, hs, hk⟩
          exact ⟨s, List.mem_cons_of_mem _ hs, hk⟩
      · rintro ⟨s, hs, hk⟩
        rcases List.mem_cons.mp hs with heq | hs2
        · rw [← hk, heq]
          exact List.mem_cons_self _ _
        · exact List.mem_cons_of_mem _ (ih.mpr ⟨s, hs2, hk⟩)

theorem nodup_uniqueKeys (key : Shipment → GKey) (l : List Shipment) :
    (uniqueKeys key l).Nodup := by
  induction l with
  | nil => exact List.nodup_nil
  | cons a rest ih =>
    simp only [uniqueKeys]
    split
    next => exact ih
    next h => exact List.nodup_cons.mpr ⟨h, ih⟩

theorem uniqueKeys_congr {k1 k2 : Shipment → GKey} {l : List Shipment}
    (h : ∀ s ∈ l, k1 s = k2 s) : uniqueKeys k1 l = uniqueKeys k2 l := by
  induction l with
  | nil => rfl
  | cons a rest ih =>
    have ha : k1 a = k2 a := h a (List.mem_cons_self _ _)
    have hr : uniqueKeys k1 rest = uniqueKeys k2 rest :=
      ih fun s hs => h s (List.mem_cons_of_mem _ hs)
    simp only [uniqueKeys, ha, hr]

/-- The fibers of a key function over a duplicate-free, covering key list
partition the list: their sizes sum to its length. -/
theorem sum_fiber_lengths {key : Shipment → GKey} :
    ∀ (ks : List GKey) (l : List Shipment), ks.Nodup →
      (∀ s ∈ l, key s ∈ ks) →
      ((ks.map fun k => (l.filter fun s => key s == k).length).sum = l.length)
  | [], l, _, hcov => by
    cases l with
    | nil => simp
    | cons a _ => exact absurd (hcov a (List.mem_cons_self _ _)) (by simp)
  | k :: ks, l, hnd, hcov => by
    have hnd2 : ks.Nodup := (List.nodup_cons.mp hnd).2
    have hk : k ∉ ks := (List.nodup_cons.mp hnd).1
    have hsplit :
        (l.filter fun s => key s == k).length +
          (l.filter fun s => !(key s == k)).length = l.length :=
      length_filter_not_add _ l
    have hcov2 : ∀ s ∈ l.filter fun s => !(key s == k), key s ∈ ks := by
      intro s hs
      rcases List.mem_filter.mp hs with ⟨hsl, hne⟩
      rcases List.mem_cons.mp (hcov s hsl) with h | h
      · simp [h] at hne
      · exact h
    have hfib : ∀ k2 ∈ ks,
        ((l.filter fun s => !(key s == k)).filter fun s => key s == k2) =
          l.filter fun s => key s == k2 := by
      intro k2 hk2
      have hne : k2 ≠ k := fun h => hk (h ▸ hk2)
      rw [List.filter_filter]
      refine List.filter_congr fun s _ => ?_
      by_cases h : key s = k2
      · simp [h, hne]
      · simp [h]
    have ih := sum_fiber_lengths ks (l.filter fun s => !(key s == k)) hnd2 hcov2
    have hmap :
        (ks.map fun k2 => (l.filter fun s => key s == k2).length) =
          ks.map fun k2 =>
            ((l.filter fun s => !(key s == k)).filter fun s => key s == k2).length := by
      refine List.map_congr_left fun k2 hk2 => ?_
      rw [hfib k2 hk2]
    simp only [List.map_cons, List.sum_cons, hmap]
    omega

/-- A duplicate-free image makes the function injective on the list. -/
theorem nodup_map_inj {α β : Type} {f : α → β} {l : List α}
    (h : (l.map f).Nodup) {a b : α} (ha : a ∈ l) (hb : b ∈ l)
    (hfab : f a = f b) : a = b := by
  induction l with
  | nil => cases ha
  | cons x t ih =>
    have h2 : (f x :: t.map f).Nodup := by simpa using h
    have hx : f x ∉ t.map f := (List.nodup_cons.mp h2).1
    have ht : (t.map f).Nodup := (List.nodup_cons.mp h2).2
    rcases List.mem_cons.mp ha with ha1 | ha2
    · rcases List.mem_cons.mp hb with hb1 | hb2
      · rw [ha1, hb1]
      · exfalso
        apply hx
        rw [ha1] at hfab
        rw [hfab]
        exact List.mem_map_of_mem f hb2
    · rcases List.mem_cons.mp hb with hb1 | hb2
      · exfalso
        apply hx
        rw [hb1] at hfab
        rw [← hfab]
        exact List.mem_map_of_mem f ha2
      · exact ih ht ha2 hb2

theorem foldl_add_sum {α : Type} (g : α → Nat) (l : List α) (n : Nat) :
    l.foldl (fun sum v => sum + g v) n = n + (l.map g).sum := by
  induction l generalizing n with
  | nil => simp
  | cons a t ih => simp [List.foldl_cons, ih, Nat.add_assoc]

/-! ### Structure of one real-run group step -/

/-- The `errors[]` entry recorded for a failed group. -/
def mkErr (k : GKey) (msg : String) : MigError :=
  ⟨k.vesselName, orNull k.jobNumber, orNull k.pod, msg⟩

/-- How a real-run pass may change one shipment document: every field except
`vesselId` is untouched, and `vesselId` is either untouched or set from
absent to a concrete vessel reference. -/
def Upgrades (s t : Shipment) : Prop :=
  t.sid = s.sid ∧ t.vesselName = s.vesselName ∧ t.jobNumber = s.jobNumber ∧
    t.pod = s.pod ∧
    (t.vesselId = s.vesselId ∨
      (s.vesselId = none ∧ ∃ i, t.vesselId = some (some i)))

theorem Upgrades.refl (s : Shipment) : Upgrades s s :=
  ⟨rfl, rfl, rfl, rfl, Or.inl rfl⟩

theorem Upgrades.trans {s t u : Shipment} (h1 : Upgrades s t)
    (h2 : Upgrades t u) : Upgrades s u := by
  obtain ⟨a1, b1, c1, d1, e1⟩ := h1
  obtain ⟨a2, b2, c2, d2, e2⟩ := h2
  refine ⟨a2.trans a1, b2.trans b1, c2.trans c1, d2.trans d1, ?_⟩
  rcases e1 with e1 | ⟨hn1, i1, hi1⟩
  · rcases e2 with e2 | ⟨hn2, i2, hi2⟩
    · exact Or.inl (e2.trans e1)
    · exact Or.inr ⟨e1 ▸ hn2, i2, hi2⟩
  · rcases e2 with e2 | ⟨hn2, i2, hi2⟩
    · exact Or.inr ⟨hn1, i1, e2.trans hi1⟩
    · rw [hi1] at hn2
      cases hn2

theorem setVesselId_upgrades (ids : List Nat) (vid : Nat) (s : Shipment) :
    Upgrades s (setVesselId ids vid s) := by
  unfold setVesselId
  by_cases hc : (ids.contains s.sid && s.vesselId.isNone) = true
  · have hnone : s.vesselId = none :=
      Option.isNone_iff_eq_none.mp (Bool.and_eq_true_iff.mp hc).2
    rw [if_pos hc]
    exact ⟨rfl, rfl, rfl, rfl, Or.inr ⟨hnone, vid, rfl⟩⟩
  · rw [if_neg hc]
    exact Upgrades.refl s

theorem setVesselId_sid (ids : List Nat) (vid : Nat) (s : Shipment) :
    (setVesselId ids vid s).sid = s.sid := by
  unfold setVesselId
  by_cases hc : (ids.contains s.sid && s.vesselId.isNone) = true
  · rw [if_pos hc]
  · rw [if_neg hc]

theorem setVesselId_not_mem {ids : List Nat} {s : Shipment} (vid : Nat)
    (h : s.sid ∉ ids) : setVesselId ids vid s = s := by
  unfold setVesselId
  rw [if_neg (by simp [h])]

theorem setVesselId_mem {ids : List Nat} {s : Shipment} (vid : Nat)
    (h : s.sid ∈ ids) :
    (setVesselId ids vid s).vesselId = some (some vid) ∨
      ((setVesselId ids vid s).vesselId = s.vesselId ∧ s.vesselId ≠ none) := by
  unfold setVesselId
  cases hn : s.vesselId with
  | none =>
    left
    rw [if_pos]
    simp [h]
  | some j =>
    right
    rw [if_neg]
    · simp [hn]
    · simp [hn]

theorem findOrCreate_char (st : Store) (log : MigLog) (name : String)
    (job pod : Option String) :
    (findOrCreate st log name job pod).1.shipments = st.shipments ∧
    List.Sublist st.vessels (findOrCreate st log name job pod).1.vessels ∧
    (findOrCreate st log name job pod).2.2 ∈
      (findOrCreate st log name job pod).1.vessels ∧
    (findOrCreate st log name job pod).2.1.shipmentsUpdated =
      log.shipmentsUpdated ∧
    (findOrCreate st log name job pod).2.1.errors = log.errors := by
  unfold findOrCreate
  cases hfind : st.vessels.find? (vesselMatches name job) with
  | some v =>
    exact ⟨rfl, List.Sublist.refl _, List.mem_of_find?_eq_some hfind, rfl, rfl⟩
  | none =>
    refine ⟨rfl, List.sublist_append_left _ _, ?_, rfl, rfl⟩
    exact List.mem_append_right _ (List.mem_singleton.mpr rfl)

theorem processGroup_fail_eq {fail : GKey → Option String} {k : GKey}
    {msg : String} (st : Store) (log : MigLog) (ids : List Nat)
    (hf : fail k = some msg) :
    processGroup fail st log k ids =
      (st, { log with errors := log.errors ++ [mkErr k msg] }) := by
  simp [processGroup, hf, mkErr]

/-- The store shape after one group step: vessels are only ever appended,
and the shipment list is rewritten pointwise by a function that upgrades
each document and leaves documents outside the group id list alone. -/
theorem processGroup_char (fail : GKey → Option String) (st : Store)
    (log : MigLog) (k : GKey) (ids : List Nat) :
    List.Sublist st.vessels (processGroup fail st log k ids).1.vessels ∧
    ∃ f, (processGroup fail st log k ids).1.shipments = st.shipments.map f ∧
      (∀ s, Upgrades s (f s)) ∧ (∀ s, s.sid ∉ ids → f s = s) := by
  cases hf : fail k with
  | some msg =>
    rw [processGroup_fail_eq st log ids hf]
    exact ⟨List.Sublist.refl _,
      id, (List.map_id _).symm, fun s => Upgrades.refl s, fun s _ => rfl⟩
  | none =>
    obtain ⟨hship, hves, _, _, _⟩ :=
      findOrCreate_char st log k.vesselName (orNull k.jobNumber) (orNull k.pod)
    simp only [processGroup, hf]
    refine ⟨?_, ?_⟩
    · exact hves
    · refine ⟨setVesselId ids
        (findOrCreate st log k.vesselName (orNull k.jobNumber)
          (orNull k.pod)).2.2.vid, ?_, ?_, ?_⟩
      · simp [updateGroup, hship]
      · exact fun s => setVesselId_upgrades _ _ s
      · exact fun s hs => setVesselId_not_mem _ hs

/-- The conditional bulk update touches exactly one document per group id
when sids are unique and every group id belongs to a document that still
lacks `vesselId`. -/
theorem length_filter_sid_mem (l : List Shipment) (ids : List Nat)
    (hsid : (l.map Shipment.sid).Nodup) (hidnd : ids.Nodup)
    (hex : ∀ x ∈ ids, ∃ s ∈ l, s.sid = x ∧ s.vesselId = none) :
    (l.filter fun s => ids.contains s.sid && s.vesselId.isNone).length =
      ids.length := by
  have hsubl : List.Sublist
      (l.filter fun s => ids.contains s.sid && s.vesselId.isNone) l :=
    List.filter_sublist l
  have hmapnd :
      ((l.filter fun s => ids.contains s.sid && s.vesselId.isNone).map
        Shipment.sid).Nodup :=
    List.Nodup.sublist (hsubl.map Shipment.sid) hsid
  have hmem : ∀ x,
      (x ∈ (l.filter fun s => ids.contains s.sid && s.vesselId.isNone).map
        Shipment.sid) ↔ x ∈ ids := by
    intro x
    constructor
    · intro hx
      obtain ⟨s, hsF, hsx⟩ := List.mem_map.mp hx
      obtain ⟨hsl, hcond⟩ := List.mem_filter.mp hsF
      have hc1 := (Bool.and_eq_true_iff.mp hcond).1
      rw [← hsx]
      simpa using hc1
    · intro hx
      obtain ⟨s, hsl, hsx, hsnone⟩ := hex x hx
      have hcond : (ids.contains s.sid && s.vesselId.isNone) = true := by
        simp [hsx, hx, hsnone]
      exact hsx ▸ List.mem_map_of_mem _ (List.mem_filter.mpr ⟨hsl, hcond⟩)
  have hperm : List.Perm
      ((l.filter fun s => ids.contains s.sid && s.vesselId.isNone).map
        Shipment.sid) ids :=
    List.perm_of_nodup_nodup_toFinset_eq hmapnd hidnd (by
      ext x
      simp only [List.mem_toFinset]
      exact hmem x)
  calc (l.filter fun s => ids.contains s.sid && s.vesselId.isNone).length
      = ((l.filter fun s => ids.contains s.sid && s.vesselId.isNone).map
          Shipment.sid).length := (List.length_map _ _).symm
    _ = ids.length := hperm.length_eq

/-- A no-fault group step links every group id that still lacked a vessel
to one single vessel id, present in the resulting vessel collection. -/
theorem processGroup_sets (fail : GKey → Option String) (st : Store)
    (log : MigLog) (k : GKey) (ids : List Nat) (hf : fail k = none)
    (hpre : ∀ s ∈ st.shipments, s.sid ∈ ids → s.vesselId = none) :
    ∃ i, (∃ v ∈ (processGroup fail st log k ids).1.vessels, v.vid = i) ∧
      ∀ t ∈ (processGroup fail st log k ids).1.shipments, t.sid ∈ ids →
        t.vesselId = some (some i) := by
  obtain ⟨hship, hves, hmemv, hupd, herr⟩ :=
    findOrCreate_char st log k.vesselName (orNull k.jobNumber) (orNull k.pod)
  refine ⟨(findOrCreate st log k.vesselName (orNull k.jobNumber)
      (orNull k.pod)).2.2.vid,
    ⟨(findOrCreate st log k.vesselName (orNull k.jobNumber) (orNull k.pod)).2.2,
      ?_, rfl⟩, ?_⟩
  · simp only [processGroup, hf]
    simpa [updateGroup] using hmemv
  · intro t ht hts
    simp only [processGroup, hf, updateGroup] at ht
    rw [hship] at ht
    obtain ⟨s, hsl, rfl⟩ := List.mem_map.mp ht
    have hsmem : s.sid ∈ ids := setVesselId_sid ids _ s ▸ hts
    rcases setVesselId_mem _ hsmem with h1 | ⟨_, h3⟩
    · exact h1
    · exact absurd (hpre s hsl hsmem) h3

/-- A no-fault group step leaves every shipment of the group with some
vessel reference, whatever its previous state. -/
theorem processGroup_sets_ne (fail : GKey → Option String) (st : Store)
    (log : MigLog) (k : GKey) (ids : List Nat) (hf : fail k = none) :
    ∀ t ∈ (processGroup fail st log k ids).1.shipments, t.sid ∈ ids →
      t.vesselId ≠ none := by
  obtain ⟨hship, _, _, _, _⟩ :=
    findOrCreate_char st log k.vesselName (orNull k.jobNumber) (orNull k.pod)
  intro t ht hts
  simp only [processGroup, hf, updateGroup] at ht
  rw [hship] at ht
  obtain ⟨s, hsl, rfl⟩ := List.mem_map.mp ht
  have hsmem : s.sid ∈ ids := setVesselId_sid ids _ s ▸ hts
  rcases setVesselId_mem _ hsmem with h1 | ⟨h2, h3⟩
  · rw [h1]
    simp
  · rw [h2]
    exact h3

theorem processGroup_count (fail : GKey → Option String) (st : Store)
    (log : MigLog) (k : GKey) (ids : List Nat) (hf : fail k = none)
    (hidnd : ids.Nodup) (hsid : (st.shipments.map Shipment.sid).Nodup)
    (hex : ∀ x ∈ ids, ∃ s ∈ st.shipments, s.sid = x ∧ s.vesselId = none) :
    (processGroup fail st log k ids).2.shipmentsUpdated =
      log.shipmentsUpdated + ids.length := by
  obtain ⟨hship, _, _, hupd, _⟩ :=
    findOrCreate_char st log k.vesselName (orNull k.jobNumber) (orNull k.pod)
  have hcount := length_filter_sid_mem st.shipments ids hsid hidnd hex
  simp [processGroup, hf, updateGroup, hship, hupd]
  simpa using hcount

theorem processGroup_errors_ok {fail : GKey → Option String} {k : GKey}
    (st : Store) (log : MigLog) (ids : List Nat) (hf : fail k = none) :
    (processGroup fail st log k ids).2.errors = log.errors := by
  obtain ⟨_, _, _, _, herr⟩ :=
    findOrCreate_char st log k.vesselName (orNull k.jobNumber) (orNull k.pod)
  simp [processGroup, hf, updateGroup, herr]

/-! ### The whole group loop -/

/-- Across the whole loop, vessels are only appended and shipments are only
pointwise upgraded. -/
theorem runGroups_char (fail : GKey → Option String) :
    ∀ (gs : List (GKey × List Nat)) (p : Store × MigLog),
      List.Sublist p.1.vessels (runGroups fail gs p).1.vessels ∧
      ∃ f, (runGroups fail gs p).1.shipments = p.1.shipments.map f ∧
        ∀ s, Upgrades s (f s)
  | [], p =>
    ⟨List.Sublist.refl _, id, (List.map_id _).symm, fun s => Upgrades.refl s⟩
  | g :: gs, p => by
    obtain ⟨hv1, f1, hs1, hu1, _⟩ := processGroup_char fail p.1 p.2 g.1 g.2
    obtain ⟨hv2, f2, hs2, hu2⟩ :=
      runGroups_char fail gs (processGroup fail p.1 p.2 g.1 g.2)
    simp only [runGroups]
    refine ⟨hv1.trans hv2, f2 ∘ f1, ?_, ?_⟩
    · rw [hs2, hs1, List.map_map]
    · exact fun s => (hu1 s).trans (hu2 (f1 s))

theorem runGroups_pres_set (fail : GKey → Option String)
    (gs : List (GKey × List Nat)) (p : Store × MigLog) (ids0 : List Nat)
    (i : Nat)
    (h : ∀ s ∈ p.1.shipments, s.sid ∈ ids0 → s.vesselId = some (some i)) :
    ∀ t ∈ (runGroups fail gs p).1.shipments, t.sid ∈ ids0 →
      t.vesselId = some (some i) := by
  obtain ⟨_, f, hs, hu⟩ := runGroups_char fail gs p
  rw [hs]
  intro t ht hts
  obtain ⟨s, hsl, rfl⟩ := List.mem_map.mp ht
  obtain ⟨hsid, _, _, _, hvid⟩ := hu s
  have hset := h s hsl (hsid ▸ hts)
  rcases hvid with h1 | ⟨h2, _⟩
  · rw [h1, hset]
  · rw [hset] at h2
    exact Option.noConfusion h2

theorem runGroups_pres_ne (fail : GKey → Option String)
    (gs : List (GKey × List Nat)) (p : Store × MigLog) (ids0 : List Nat)
    (h : ∀ s ∈ p.1.shipments, s.sid ∈ ids0 → s.vesselId ≠ none) :
    ∀ t ∈ (runGroups fail gs p).1.shipments, t.sid ∈ ids0 →
      t.vesselId ≠ none := by
  obtain ⟨_, f, hs, hu⟩ := runGroups_char fail gs p
  rw [hs]
  intro t ht hts
  obtain ⟨s, hsl, rfl⟩ := List.mem_map.mp ht
  obtain ⟨hsid, _, _, _, hvid⟩ := hu s
  have hne := h s hsl (hsid ▸ hts)
  rcases hvid with h1 | ⟨_, j, hj⟩
  · rw [h1]
    exact hne
  · rw [hj]
    simp

/-- Every group whose store operations do not fault ends with all its
shipments carrying some vessel reference. -/
theorem runGroups_covers_ne (fail : GKey → Option String) :
    ∀ (gs : List (GKey × List Nat)) (p : Store × MigLog) (k : GKey)
      (ids : List Nat), (k, ids) ∈ gs → fail k = none →
      ∀ t ∈ (runGroups fail gs p).1.shipments, t.sid ∈ ids →
        t.vesselId ≠ none
  | [], _, _, _, hmem, _ => absurd hmem (List.not_mem_nil _)
  | g :: gs, p, k, ids, hmem, hf => by
    simp only [runGroups]
    rcases List.mem_cons.mp hmem with heq | hmem2
    · subst heq
      exact runGroups_pres_ne fail gs _ ids
        (processGroup_sets_ne fail p.1 p.2 k ids hf)
    · exact runGroups_covers_ne fail gs _ k ids hmem2 hf

/-- Every group whose store operations do not fault, whose ids are pairwise
disjoint from the other groups, and whose shipments all still lack a vessel
reference, ends with all its shipments pointing at one identical vessel id
that exists in the final vessel collection. -/
theorem runGroups_covers (fail : GKey → Option String) :
    ∀ (gs : List (GKey × List Nat)) (p : Store × MigLog) (k : GKey)
      (ids : List Nat), (k, ids) ∈ gs → fail k = none →
      (gs.map Prod.fst).Nodup →
      (∀ k1 i1 k2 i2, (k1, i1) ∈ gs → (k2, i2) ∈ gs → k1 ≠ k2 →
        ∀ x ∈ i1, x ∉ i2) →
      (∀ s ∈ p.1.shipments, s.sid ∈ ids → s.vesselId = none) →
      ∃ i, (∃ v ∈ (runGroups fail gs p).1.vessels, v.vid = i) ∧
        ∀ t ∈ (runGroups fail gs p).1.shipments, t.sid ∈ ids →
          t.vesselId = some (some i)
  | [], _, _, _, hmem, _, _, _, _ => absurd hmem (List.not_mem_nil _)
  | g :: gs, p, k, ids, hmem, hf, hnd, hdisj, hpre => by
    simp only [runGroups]
    rcases List.mem_cons.mp hmem with heq | hmem2
    · subst heq
      obtain ⟨i, ⟨v, hvmem, hvid⟩, hset⟩ :=
        processGroup_sets fail p.1 p.2 k ids hf hpre
      refine ⟨i, ⟨v, ?_, hvid⟩, ?_⟩
      · exact (runGroups_char fail gs _).1.subset hvmem
      · exact runGroups_pres_set fail gs _ ids i hset
    · have hkmem : k ∈ gs.map Prod.fst :=
        List.mem_map_of_mem Prod.fst hmem2
      have hnd2 : (g.1 :: gs.map Prod.fst).Nodup := by simpa using hnd
      have hne : g.1 ≠ k := fun h => (List.nodup_cons.mp hnd2).1 (h ▸ hkmem)
      obtain ⟨_, f, hsmap, hupg, hunt⟩ := processGroup_char fail p.1 p.2 g.1 g.2
      have hpre2 : ∀ s ∈ (processGroup fail p.1 p.2 g.1 g.2).1.shipments,
          s.sid ∈ ids → s.vesselId = none := by
        intro t ht hts
        rw [hsmap] at ht
        obtain ⟨s, hsl, rfl⟩ := List.mem_map.mp ht
        have hmemids : s.sid ∈ ids := (hupg s).1 ▸ hts
        have hnotin : s.sid ∉ g.2 := fun hin =>
          hdisj g.1 g.2 k ids (List.mem_cons_self _ _)
            (List.mem_cons_of_mem _ hmem2) hne s.sid hin hmemids
        rw [hunt s hnotin]
        exact hpre s hsl hmemids
      exact runGroups_covers fail gs _ k ids hmem2 hf
        (by simpa using (List.nodup_cons.mp hnd2).2)
        (fun k1 i1 k2 i2 h1 h2 =>
          hdisj k1 i1 k2 i2 (List.mem_cons_of_mem _ h1)
            (List.mem_cons_of_mem _ h2)) hpre2

theorem runGroups_errors_sub (fail : GKey → Option String) :
    ∀ (gs : List (GKey × List Nat)) (p : Store × MigLog),
      List.Sublist p.2.errors (runGroups fail gs p).2.errors
  | [], _ => List.Sublist.refl _
  | g :: gs, p => by
    simp only [runGroups]
    refine List.Sublist.trans ?_ (runGroups_errors_sub fail gs _)
    cases hf : fail g.1 with
    | some msg =>
      rw [processGroup_fail_eq p.1 p.2 g.2 hf]
      exact List.sublist_append_left _ _
    | none =>
      rw [processGroup_errors_ok p.1 p.2 g.2 hf]

/-- A faulted group leaves its error entry in the final log. -/
theorem runGroups_errors_mem (fail : GKey → Option String) :
    ∀ (gs : List (GKey × List Nat)) (p : Store × MigLog) (k : GKey)
      (ids : List Nat) (msg : String), (k, ids) ∈ gs → fail k = some msg →
      mkErr k msg ∈ (runGroups fail gs p).2.errors
  | [], _, _, _, _, hmem, _ => absurd hmem (List.not_mem_nil _)
  | g :: gs, p, k, ids, msg, hmem, hf => by
    simp only [runGroups]
    rcases List.mem_cons.mp hmem with heq | hmem2
    · subst heq
      refine (runGroups_errors_sub fail gs _).subset ?_
      rw [processGroup_fail_eq p.1 p.2 ids hf]
      simp
    · exact runGroups_errors_mem fail gs _ k ids msg hmem2 hf

theorem processGroup_sid_map (fail : GKey → Option String) (st : Store)
    (log : MigLog) (k : GKey) (ids : List Nat) :
    (processGroup fail st log k ids).1.shipments.map Shipment.sid =
      st.shipments.map Shipment.sid := by
  obtain ⟨_, f, hs, hu, _⟩ := processGroup_char fail st log k ids
  rw [hs, List.map_map]
  exact List.map_congr_left fun s _ => (hu s).1

/-- Summing the bulk updates: with unique sids, duplicate-free pairwise
disjoint group id lists all still lacking a vessel reference, and no
injected faults, the loop reports exactly the total group size as
`shipmentsUpdated`. -/
theorem runGroups_updated (fail : GKey → Option String) :
    ∀ (gs : List (GKey × List Nat)) (p : Store × MigLog),
      (∀ g ∈ gs, fail g.1 = none) →
      (p.1.shipments.map Shipment.sid).Nodup →
      (∀ g ∈ gs, (g.2 : List Nat).Nodup) →
      (∀ g ∈ gs, ∀ x ∈ g.2, ∃ s ∈ p.1.shipments,
        s.sid = x ∧ s.vesselId = none) →
      gs.Pairwise (fun g1 g2 => ∀ x ∈ g1.2, x ∉ g2.2) →
      (runGroups fail gs p).2.shipmentsUpdated =
        p.2.shipmentsUpdated + (gs.map fun g => g.2.length).sum
  | [], p, _, _, _, _, _ => by simp [runGroups]
  | g :: gs, p, hall, hsid, hnd, hex, hdisj => by
    have hfg : fail g.1 = none := hall g (List.mem_cons_self _ _)
    have hcnt := processGroup_count fail p.1 p.2 g.1 g.2 hfg
      (hnd g (List.mem_cons_self _ _)) hsid (hex g (List.mem_cons_self _ _))
    obtain ⟨_, f, hsmap, hupg, hunt⟩ := processGroup_char fail p.1 p.2 g.1 g.2
    have hsid2 : ((processGroup fail p.1 p.2 g.1 g.2).1.shipments.map
        Shipment.sid).Nodup := by
      rw [processGroup_sid_map]
      exact hsid
    have hdisj1 := (List.pairwise_cons.mp hdisj).1
    have hex2 : ∀ g2 ∈ gs, ∀ x ∈ g2.2,
        ∃ s ∈ (processGroup fail p.1 p.2 g.1 g.2).1.shipments,
          s.sid = x ∧ s.vesselId = none := by
      intro g2 hg2 x hx
      obtain ⟨s, hsl, hsx, hsnone⟩ := hex g2 (List.mem_cons_of_mem _ hg2) x hx
      have hnotin : s.sid ∉ g.2 := fun hin =>
        hdisj1 g2 hg2 s.sid hin (hsx ▸ hx)
      refine ⟨s, ?_, hsx, hsnone⟩
      rw [hsmap]
      exact hunt s hnotin ▸ List.mem_map_of_mem f hsl
    simp only [runGroups]
    rw [runGroups_updated fail gs _
      (fun g2 hg2 => hall g2 (List.mem_cons_of_mem _ hg2)) hsid2
      (fun g2 hg2 => hnd g2 (List.mem_cons_of_mem _ hg2)) hex2
      (List.pairwise_cons.mp hdisj).2, hcnt]
    simp only [List.map_cons, List.sum_cons]
    omega

/-! ### Facts about the real-run grouping -/

theorem unmig_vesselId_none {s : Shipment} (h : isUnmigrated s = true) :
    s.vesselId = none :=
  Option.isNone_iff_eq_none.mp (Bool.and_eq_true_iff.mp h).2

theorem mem_execGroups (st : Store) {k : GKey} {ids : List Nat} :
    (k, ids) ∈ execGroups st ↔
      k ∈ uniqueKeys execKey (unmigratedOf st) ∧
        ids = ((unmigratedOf st).filter fun s => execKey s == k).map
          Shipment.sid := by
  simp only [execGroups]
  constructor
  · intro h
    obtain ⟨k2, hk2, heq⟩ := List.mem_map.mp h
    have hfst : k2 = k := congrArg Prod.fst heq
    subst hfst
    exact ⟨hk2, (congrArg Prod.snd heq).symm⟩
  · rintro ⟨hk, rfl⟩
    exact List.mem_map_of_mem _ hk

theorem execGroups_keys (st : Store) :
    (execGroups st).map Prod.fst = uniqueKeys execKey (unmigratedOf st) := by
  rw [execGroups, List.map_map]
  exact List.map_id _ ▸ List.map_congr_left fun k _ => rfl

theorem mem_group_ids (st : Store) {s : Shipment} (hs : s ∈ st.shipments)
    (hu : isUnmigrated s = true) :
    ∃ ids, (execKey s, ids) ∈ execGroups st ∧ s.sid ∈ ids := by
  have hun : s ∈ unmigratedOf st := List.mem_filter.mpr ⟨hs, hu⟩
  have hk : execKey s ∈ uniqueKeys execKey (unmigratedOf st) :=
    mem_uniqueKeys.mpr ⟨s, hun, rfl⟩
  refine ⟨_, (mem_execGroups st).mpr ⟨hk, rfl⟩, ?_⟩
  exact List.mem_map_of_mem _ (List.mem_filter.mpr ⟨hun, by simp⟩)

theorem execGroups_ids_nodup (st : Store)
    (hsid : (st.shipments.map Shipment.sid).Nodup) {k : GKey}
    {ids : List Nat} (hmem : (k, ids) ∈ execGroups st) : ids.Nodup := by
  obtain ⟨_, rfl⟩ := (mem_execGroups st).mp hmem
  have hsub : List.Sublist
      ((unmigratedOf st).filter fun s => execKey s == k) st.shipments :=
    ((List.filter_sublist _).trans (List.filter_sublist _))
  exact List.Nodup.sublist (hsub.map Shipment.sid) hsid

theorem execGroups_ids_none (st : Store) {k : GKey} {ids : List Nat}
    (hmem : (k, ids) ∈ execGroups st) :
    ∀ x ∈ ids, ∃ s ∈ st.shipments, s.sid = x ∧ s.vesselId = none := by
  obtain ⟨_, rfl⟩ := (mem_execGroups st).mp hmem
  intro x hx
  obtain ⟨s, hsf, hsx⟩ := List.mem_map.mp hx
  obtain ⟨hsu, _⟩ := List.mem_filter.mp hsf
  obtain ⟨hsl, hunm⟩ := List.mem_filter.mp hsu
  exact ⟨s, hsl, hsx, unmig_vesselId_none hunm⟩

theorem execGroups_fiber_disj (st : Store)
    (hsid : (st.shipments.map Shipment.sid).Nodup) {a b : GKey} (hne : a ≠ b) :
    ∀ x ∈ ((unmigratedOf st).filter fun s => execKey s == a).map Shipment.sid,
      x ∉ ((unmigratedOf st).filter fun s => execKey s == b).map
        Shipment.sid := by
  intro x hxa hxb
  obtain ⟨s1, hs1f, hs1x⟩ := List.mem_map.mp hxa
  obtain ⟨s2, hs2f, hs2x⟩ := List.mem_map.mp hxb
  obtain ⟨hs1u, hk1⟩ := List.mem_filter.mp hs1f
  obtain ⟨hs2u, hk2⟩ := List.mem_filter.mp hs2f
  have hs1l : s1 ∈ st.shipments := (List.mem_filter.mp hs1u).1
  have hs2l : s2 ∈ st.shipments := (List.mem_filter.mp hs2u).1
  have heq : s1 = s2 := nodup_map_inj hsid hs1l hs2l (by rw [hs1x, hs2x])
  apply hne
  calc a = execKey s1 := (beq_iff_eq.mp hk1).symm
    _ = execKey s2 := by rw [heq]
    _ = b := beq_iff_eq.mp hk2

theorem execGroups_disj (st : Store)
    (hsid : (st.shipments.map Shipment.sid).Nodup) :
    ∀ k1 i1 k2 i2, (k1, i1) ∈ execGroups st → (k2, i2) ∈ execGroups st →
      k1 ≠ k2 → ∀ x ∈ i1, x ∉ i2 := by
  intro k1 i1 k2 i2 h1 h2 hne x hx
  obtain ⟨_, rfl⟩ := (mem_execGroups st).mp h1
  obtain ⟨_, rfl⟩ := (mem_execGroups st).mp h2
  exact execGroups_fiber_disj st hsid hne x hx

theorem execGroups_pairwise (st : Store)
    (hsid : (st.shipments.map Shipment.sid).Nodup) :
    (execGroups st).Pairwise fun g1 g2 => ∀ x ∈ g1.2, x ∉ g2.2 := by
  have hnd : (uniqueKeys execKey (unmigratedOf st)).Pairwise (· ≠ ·) :=
    nodup_uniqueKeys execKey (unmigratedOf st)
  exact List.Pairwise.map _
    (fun a b hne => execGroups_fiber_disj st hsid hne) hnd

theorem execGroups_pre (st : Store)
    (hsid : (st.shipments.map Shipment.sid).Nodup) {k : GKey}
    {ids : List Nat} (hmem : (k, ids) ∈ execGroups st) :
    ∀ s ∈ st.shipments, s.sid ∈ ids → s.vesselId = none := by
  intro s hsl hsin
  obtain ⟨u, hul, hux, hunone⟩ := execGroups_ids_none st hmem s.sid hsin
  have : u = s := nodup_map_inj hsid hul hsl hux
  exact this ▸ hunone

/-! ### Claim theorems -/

theorem executeRealWith_eq (fail : GKey → Option String) (st : Store) :
    executeRealWith fail st = runGroups fail (execGroups st) (st, emptyLog) :=
  rfl

/-- After a fault-free real run, no shipment matches the unmigrated filter
any more. -/
theorem executeReal_no_unmigrated (st : Store) :
    unmigratedOf (executeReal st).1 = [] := by
  unfold unmigratedOf
  rw [List.filter_eq_nil_iff]
  intro t ht
  rw [executeReal, executeRealWith_eq] at ht
  obtain ⟨_, f, hmap, hupg⟩ :=
    runGroups_char (fun _ => none) (execGroups st) (st, emptyLog)
  rw [hmap] at ht
  obtain ⟨s, hsl, rfl⟩ := List.mem_map.mp ht
  by_cases hu : isUnmigrated s = true
  · obtain ⟨ids, hg, hsin⟩ := mem_group_ids st hsl hu
    have hne := runGroups_covers_ne (fun _ => none) (execGroups st)
      (st, emptyLog) (execKey s) ids hg rfl (f s)
      (by rw [hmap]; exact List.mem_map_of_mem f hsl) ((hupg s).1 ▸ hsin)
    intro hcon
    exact hne (unmig_vesselId_none hcon)
  · obtain ⟨_, hname, _, _, hvid⟩ := hupg s
    rcases hvid with h1 | ⟨_, j, hj⟩
    · intro hcon
      apply hu
      unfold isUnmigrated at hcon ⊢
      rw [hname, h1] at hcon
      exact hcon
    · intro hcon
      unfold isUnmigrated at hcon
      rw [hj] at hcon
      simp at hcon

/-- C1.  Idempotence of the real Execute: a fault-free real run leaves zero
shipments matching the unmigrated grouping filter, so an immediately
repeated real run finds zero groups and reports
`shipmentsUpdated = 0` and `vesselsCreated = 0`. -/
theorem execute_idempotent (st : Store) :
    unmigratedOf (executeReal st).1 = [] ∧
    (executeReal (executeReal st).1).2.shipmentsUpdated = 0 ∧
    (executeReal (executeReal st).1).2.vesselsCreated = 0 := by
  have hempty := executeReal_no_unmigrated st
  have hgroups : execGroups (executeReal st).1 = [] := by
    simp [execGroups, hempty, uniqueKeys]
  refine ⟨hempty, ?_, ?_⟩ <;>
    rw [executeReal, executeRealWith_eq, hgroups] <;> rfl

/-- C2.  Grouping correctness with equivalence-class normalization: two
unmigrated shipments whose trimmed-uppercased key tuples agree (null,
missing and empty `jobNumber`/`pod` all normalize to `""`) end the real run
pointing at one identical vessel id, present in the final vessel
collection, provided their group incurred no store fault. -/
theorem grouping_correctness (st : Store) (fail : GKey → Option String)
    (s1 s2 : Shipment)
    (hsid : (st.shipments.map Shipment.sid).Nodup)
    (h1 : s1 ∈ st.shipments) (h2 : s2 ∈ st.shipments)
    (hu1 : isUnmigrated s1 = true) (hu2 : isUnmigrated s2 = true)
    (hk : execKey s1 = execKey s2)
    (hf : fail (execKey s1) = none) :
    ∃ i, (∃ v ∈ (executeRealWith fail st).1.vessels, v.vid = i) ∧
      ∀ t ∈ (executeRealWith fail st).1.shipments,
        t.sid = s1.sid ∨ t.sid = s2.sid → t.vesselId = some (some i) := by
  obtain ⟨ids, hg, hin1⟩ := mem_group_ids st h1 hu1
  have hin2 : s2.sid ∈ ids := by
    obtain ⟨hkmem, hids⟩ := (mem_execGroups st).mp hg
    subst hids
    refine List.mem_map_of_mem _ (List.mem_filter.mpr
      ⟨List.mem_filter.mpr ⟨h2, hu2⟩, ?_⟩)
    simp [hk]
  obtain ⟨i, hv, hset⟩ := runGroups_covers fail (execGroups st)
    (st, emptyLog) (execKey s1) ids hg hf
    (by rw [execGroups_keys]; exact nodup_uniqueKeys _ _)
    (execGroups_disj st hsid)
    (execGroups_pre st hsid hg)
  refine ⟨i, ?_, ?_⟩
  · rw [executeRealWith_eq]
    exact hv
  · intro t ht hts
    rw [executeRealWith_eq] at ht
    rcases hts with h | h
    · exact hset t ht (h ▸ hin1)
    · exact hset t ht (h ▸ hin2)

theorem grouping_correctness_witness :
    ∃ i, (∃ v ∈ (executeRealWith (fun _ => none) stW2).1.vessels, v.vid = i) ∧
      ∀ t ∈ (executeRealWith (fun _ => none) stW2).1.shipments,
        t.sid = sW2a.sid ∨ t.sid = sW2b.sid → t.vesselId = some (some i) :=
  grouping_correctness stW2 (fun _ => none) sW2a sW2b (by decide) (by decide)
    (by decide) (by decide) (by decide) (by decide) rfl

/-- C7.  Partial-failure isolation: when the store operations of one group
fault, the real run records `{vesselName, jobNumber, pod, error}` in the
log `errors[]`, still processes every non-faulting group (their shipments
end with a vessel reference), and the HTTP response is still the 200
success envelope carrying the full migration log. -/
theorem execute_partial_failure (st : Store) (fail : GKey → Option String)
    (k : GKey) (ids : List Nat) (msg : String)
    (hg : (k, ids) ∈ execGroups st) (hf : fail k = some msg) :
    (executeMigration none fail st).1 =
      ExecResult.real 200 (executeRealWith fail st).2 ∧
    mkErr k msg ∈ (executeRealWith fail st).2.errors ∧
    ∀ k2 ids2, (k2, ids2) ∈ execGroups st → fail k2 = none →
      ∀ t ∈ (executeMigration none fail st).2.shipments, t.sid ∈ ids2 →
        t.vesselId ≠ none := by
  refine ⟨by simp [executeMigration], ?_, ?_⟩
  · rw [executeRealWith_eq]
    exact runGroups_errors_mem fail (execGroups st) (st, emptyLog) k ids msg
      hg hf
  · intro k2 ids2 hg2 hf2 t ht hts
    have hsnd : (executeMigration none fail st).2 =
        (executeRealWith fail st).1 := by
      simp [executeMigration]
    rw [hsnd, executeRealWith_eq] at ht
    exact runGroups_covers_ne fail (execGroups st) (st, emptyLog) k2 ids2 hg2
      hf2 t ht hts

theorem execute_partial_failure_witness :
    (executeMigration none failW7 stW7).1 =
      ExecResult.real 200 (executeRealWith failW7 stW7).2 ∧
    mkErr ⟨"BAD", "", ""⟩ "boom" ∈ (executeRealWith failW7 stW7).2.errors ∧
    ∀ k2 ids2, (k2, ids2) ∈ execGroups stW7 → failW7 k2 = none →
      ∀ t ∈ (executeMigration none failW7 stW7).2.shipments, t.sid ∈ ids2 →
        t.vesselId ≠ none :=
  execute_partial_failure stW7 failW7 ⟨"BAD", "", ""⟩ [0] "boom" (by decide)
    (by decide)

/-- C3 counterexample.  The dry run reports two vessels to create while the
real run processes a single group and creates a single vessel: the dry-run
grouping (uppercase only) is not the real-run grouping (trim then
uppercase). -/
theorem dry_run_mismatch :
    (dryRunReport stC3).vesselsToCreate = 2 ∧
    (execGroups stC3).length = 1 ∧
    (executeReal stC3).2.vesselsCreated = 1 := by
  refine ⟨by decide, by decide, by decide⟩

/-- C3 (amended).  When every unmigrated shipment already carries trimmed
key fields (its uppercase-only key equals its trim-uppercase key) and sids
are unique, the dry run plans exactly the real run: `vesselsToCreate` is
the number of groups the real run processes, `details` lists exactly the
real groups with their sizes, and `totalShipmentsToMigrate` equals the
number of shipments the fault-free real run updates.  Without the
trim-invariance assumption only the last equality survives. -/
theorem dry_run_plans_real_run (st : Store)
    (hsid : (st.shipments.map Shipment.sid).Nodup)
    (htrim : ∀ s ∈ unmigratedOf st, analyzeKey s = execKey s) :
    (dryRunReport st).vesselsToCreate = (execGroups st).length ∧
    (dryRunReport st).details = (execGroups st).map
      (fun g => ⟨g.1.vesselName, orNull g.1.jobNumber, orNull g.1.pod,
        g.2.length⟩) ∧
    (dryRunReport st).totalShipmentsToMigrate =
      (executeReal st).2.shipmentsUpdated := by
  have hkeys := uniqueKeys_congr htrim
  have hsumA := @sum_fiber_lengths analyzeKey
    (uniqueKeys analyzeKey (unmigratedOf st)) (unmigratedOf st)
    (nodup_uniqueKeys _ _) (fun s hs => mem_uniqueKeys.mpr ⟨s, hs, rfl⟩)
  have hsumE := @sum_fiber_lengths execKey
    (uniqueKeys execKey (unmigratedOf st)) (unmigratedOf st)
    (nodup_uniqueKeys _ _) (fun s hs => mem_uniqueKeys.mpr ⟨s, hs, rfl⟩)
  have hfil : ∀ k, ((unmigratedOf st).filter fun s => analyzeKey s == k) =
      (unmigratedOf st).filter fun s => execKey s == k := fun k =>
    List.filter_congr fun s hs => by rw [htrim s hs]
  refine ⟨?_, ?_, ?_⟩
  · simp only [dryRunReport, execGroups, hkeys, List.length_map]
  · simp only [dryRunReport, execGroups, hkeys, List.map_map]
    refine List.map_congr_left fun k hk => ?_
    simp only [Function.comp]
    rw [hfil k, List.length_map]
  · have hreal : (executeReal st).2.shipmentsUpdated =
        ((execGroups st).map fun g => g.2.length).sum := by
      rw [executeReal, executeRealWith_eq]
      rw [runGroups_updated (fun _ => none) (execGroups st) (st, emptyLog)
        (fun g _ => rfl) hsid
        (fun g hg => execGroups_ids_nodup st hsid hg)
        (fun g hg => execGroups_ids_none st hg)
        (execGroups_pairwise st hsid)]
      simp [emptyLog]
    have hsum2 : ((execGroups st).map fun g => g.2.length).sum =
        (unmigratedOf st).length := by
      rw [execGroups, List.map_map]
      rw [show ((fun g => g.2.length) ∘ fun k =>
          ((k : GKey), ((unmigratedOf st).filter fun s =>
            execKey s == k).map Shipment.sid)) = fun k =>
          ((unmigratedOf st).filter fun s => execKey s == k).length from
        funext fun k => by simp [Function.comp]]
      exact hsumE
    have hdry : (dryRunReport st).totalShipmentsToMigrate =
        (unmigratedOf st).length := by
      simp only [dryRunReport]
      rw [foldl_add_sum, List.map_map]
      rw [show ((fun (v : GKey × Nat) => v.2) ∘ fun k =>
          ((k : GKey), ((unmigratedOf st).filter fun s =>
            analyzeKey s == k).length)) = fun k =>
          ((unmigratedOf st).filter fun s => analyzeKey s == k).length from
        funext fun k => rfl]
      rw [hsumA]
      omega
    rw [hdry, hreal, hsum2]

theorem dry_run_plans_real_run_witness :
    (dryRunReport stW3).vesselsToCreate = (execGroups stW3).length ∧
    (dryRunReport stW3).details = (execGroups stW3).map
      (fun g => ⟨g.1.vesselName, orNull g.1.jobNumber, orNull g.1.pod,
        g.2.length⟩) ∧
    (dryRunReport stW3).totalShipmentsToMigrate =
      (executeReal stW3).2.shipmentsUpdated :=
  dry_run_plans_real_run stW3 (by decide) (by decide)

/-! ### Cleanup branch equations -/

theorem cleanupOldFields_error_eq (confirm verifyFirst : Option String)
    (st : Store) (hvf : verifyFirst.getD "true" = "true")
    (h : 0 < (unmigratedOf st).length) :
    cleanupOldFields confirm verifyFirst st =
      (.errorResp 400 ("Cannot cleanup: " ++
        toString (unmigratedOf st).length ++
        " shipments are not yet migrated. Run migration first."), st) := by
  simp only [cleanupOldFields]
  rw [if_pos]
  simp [hvf, h]

theorem cleanupOldFields_preview_eq (confirm verifyFirst : Option String)
    (st : Store) (hc : ¬ confirm = some "true")
    (hnot : ¬ (verifyFirst.getD "true" = "true" ∧
      0 < (unmigratedOf st).length)) :
    cleanupOldFields confirm verifyFirst st =
      (.preview 200
        (st.shipments.filter fun s => fieldPresent s.vesselName).length
        (st.shipments.filter fun s => fieldPresent s.pod).length
        (st.shipments.filter fun s => fieldPresent s.jobNumber).length,
       st) := by
  have h1 : ¬ ((verifyFirst.getD "true" == "true") &&
      decide (0 < (unmigratedOf st).length)) = true := by
    intro hb
    obtain ⟨hb1, hb2⟩ := Bool.and_eq_true_iff.mp hb
    exact hnot ⟨beq_iff_eq.mp hb1, of_decide_eq_true hb2⟩
  have h2 : (!(confirm == some "true")) = true := by
    simp [hc]
  simp only [cleanupOldFields]
  rw [if_neg h1, if_pos h2]

/-- C4.  Cleanup precondition enforcement: with `verifyFirst` effectively
true (its destructuring default) and at least one shipment matching the
unmigrated filter, Cleanup is refused with the 400 precondition error and
the store is returned untouched, regardless of `confirm`. -/
theorem cleanup_precondition (confirm verifyFirst : Option String)
    (st : Store) (hvf : verifyFirst.getD "true" = "true")
    (h : 0 < (unmigratedOf st).length) :
    cleanupOldFields confirm verifyFirst st =
      (.errorResp 400 ("Cannot cleanup: " ++
        toString (unmigratedOf st).length ++
        " shipments are not yet migrated. Run migration first."), st) :=
  cleanupOldFields_error_eq confirm verifyFirst st hvf h

theorem cleanup_precondition_witness :
    cleanupOldFields (some "true") none stW4 =
      (.errorResp 400 ("Cannot cleanup: " ++
        toString (unmigratedOf stW4).length ++
        " shipments are not yet migrated. Run migration first."), stW4) :=
  cleanup_precondition (some "true") none stW4 (by decide) (by decide)

/-- C9 counterexample.  Invoking Cleanup without `confirm=true` on a store
holding one unmigrated shipment does not return a preview: the default
`verifyFirst` check fires first and the call is refused with the 400
error. -/
theorem cleanup_preview_refused :
    CleanupResult.isPreview (cleanupOldFields none none stC9).1 = false := by
  decide

/-- C9 (amended).  Without `confirm=true` Cleanup never mutates the store;
it returns the preview with the three legacy-field counts exactly when the
default verify-first precondition does not fire (`verifyFirst` not
effectively true, or no unmigrated shipments) — otherwise it is refused
with the 400 precondition error, still without mutation. -/
theorem cleanup_preview_amended (confirm verifyFirst : Option String)
    (st : Store) (hc : ¬ confirm = some "true") :
    (cleanupOldFields confirm verifyFirst st).2 = st ∧
    (¬ (verifyFirst.getD "true" = "true" ∧ 0 < (unmigratedOf st).length) →
      (cleanupOldFields confirm verifyFirst st).1 =
        CleanupResult.preview 200
          (st.shipments.filter fun s => fieldPresent s.vesselName).length
          (st.shipments.filter fun s => fieldPresent s.pod).length
          (st.shipments.filter fun s => fieldPresent s.jobNumber).length) := by
  constructor
  · by_cases hnot : verifyFirst.getD "true" = "true" ∧
      0 < (unmigratedOf st).length
    · rw [cleanupOldFields_error_eq confirm verifyFirst st hnot.1 hnot.2]
    · rw [cleanupOldFields_preview_eq confirm verifyFirst st hc hnot]
  · intro hnot
    rw [cleanupOldFields_preview_eq confirm verifyFirst st hc hnot]

theorem cleanup_preview_amended_witness :
    (cleanupOldFields none (some "false") stC9).2 = stC9 ∧
    (cleanupOldFields none (some "false") stC9).1 =
      CleanupResult.preview 200
        (stC9.shipments.filter fun s => fieldPresent s.vesselName).length
        (stC9.shipments.filter fun s => fieldPresent s.pod).length
        (stC9.shipments.filter fun s => fieldPresent s.jobNumber).length :=
  ⟨(cleanup_preview_amended none (some "false") stC9 (by decide)).1,
   (cleanup_preview_amended none (some "false") stC9 (by decide)).2
     (by decide)⟩

/-- C5.  Rollback with `confirm=true` removes the vessel reference from
every migrated shipment, so each one that still carries a non-empty legacy
`vesselName` matches the unmigrated filter again, and the vessel collection
is returned completely unchanged. -/
theorem rollback_postcondition (st : Store) :
    (rollbackMigration (some "true") st).2.vessels = st.vessels ∧
    (∀ t ∈ (rollbackMigration (some "true") st).2.shipments,
      isMigrated t = false) ∧
    (∀ s ∈ st.shipments, isMigrated s = true →
      ∀ n, s.vesselName = MField.val n → n ≠ "" →
        ∃ t ∈ (rollbackMigration (some "true") st).2.shipments,
          t.sid = s.sid ∧ t.vesselName = s.vesselName ∧
            isUnmigrated t = true) := by
  have heq : rollbackMigration (some "true") st =
      (.rolledBack 200 (st.shipments.filter isMigrated).length,
       { st with shipments := st.shipments.map rollbackShip }) := by
    simp [rollbackMigration]
  rw [heq]
  refine ⟨rfl, ?_, ?_⟩
  · intro t ht
    obtain ⟨s, hsl, rfl⟩ := List.mem_map.mp ht
    unfold rollbackShip
    by_cases hm : isMigrated s = true
    · rw [if_pos hm]
      rfl
    · rw [if_neg hm]
      exact Bool.not_eq_true _ ▸ hm
  · intro s hsl hm n hn hne
    refine ⟨rollbackShip s, List.mem_map_of_mem _ hsl, ?_, ?_, ?_⟩
    · unfold rollbackShip
      rw [if_pos hm]
    · unfold rollbackShip
      rw [if_pos hm]
    · unfold rollbackShip
      rw [if_pos hm]
      simp [isUnmigrated, vesselNamePresent, hn, hne]

theorem rollback_postcondition_witness :
    (rollbackMigration (some "true") stW5).2.vessels = stW5.vessels ∧
    (∃ t ∈ (rollbackMigration (some "true") stW5).2.shipments,
      t.sid = sW5.sid ∧ t.vesselName = sW5.vesselName ∧
        isUnmigrated t = true) :=
  ⟨(rollback_postcondition stW5).1,
   (rollback_postcondition stW5).2.2 sW5 (by decide) (by decide) "A"
     (by decide) (by decide)⟩

/-- C8.  The spec says an explicit-null `vesselName` is excluded from
unmigrated counting, and the filter text `$ne: null` shows the same intent,
but the duplicate `$ne` object key silently drops it: on a store whose one
shipment has `vesselName: null` and no `vesselId`, Analyze counts one
unmigrated shipment and groups it under the empty-string key. -/
theorem analyze_counts_null_vesselName :
    (analyzeMigration stC8).unmigratedShipments = 1 ∧
    (analyzeMigration stC8).vesselCombinations = [(⟨"", "", ""⟩, 1)] := by
  decide

/-- C10 counterexample.  A shipment with a present `vesselName` and an
explicit-null `vesselId` matches none of the three state predicates, so it
is not classified into exactly one state. -/
theorem state_trichotomy_fails : ¬ stateCount sC10 = 1 := by decide

/-- C10 (amended).  The exact classification: with `vesselId` absent a
shipment is in exactly one of the three states; with an explicit-null
`vesselId` it is in one state when VesselFree and otherwise in none; with a
real vessel reference it is Migrated, and additionally VesselFree when its
`vesselName` is absent or empty. -/
theorem shipment_state_classification (s : Shipment) :
    stateCount s = match s.vesselId with
      | none => 1
      | some none => if isVesselFree s then 1 else 0
      | some (some _) => if isVesselFree s then 2 else 1 := by
  rcases s with ⟨sid, vn, jn, pd, vid⟩
  rcases vid with _ | (_ | i) <;>
    cases vn with
    | absent =>
      simp [stateCount, isUnmigrated, isMigrated, isVesselFree,
        vesselNamePresent]
    | null =>
      simp [stateCount, isUnmigrated, isMigrated, isVesselFree,
        vesselNamePresent]
    | val v =>
      by_cases hv : v = "" <;>
        simp [stateCount, isUnmigrated, isMigrated, isVesselFree,
          vesselNamePresent, hv]

theorem passed_iff_aux (u o m : Nat) :
    ((if u == 0 && o == 0 && m == 0 then "PASSED" else "ISSUES_FOUND") =
      "PASSED") ↔ (u = 0 ∧ o = 0 ∧ m = 0) := by
  by_cases h : (u == 0 && o == 0 && m == 0) = true
  · rw [if_pos h]
    simp only [Bool.and_eq_true, beq_iff_eq] at h
    exact iff_of_true rfl ⟨h.1.1, h.1.2, h.2⟩
  · rw [if_neg h]
    refine iff_of_false (by decide) ?_
    rintro ⟨h1, h2, h3⟩
    exact h (by simp [h1, h2, h3])

/-- C6.  Verify status characterization: the report is `PASSED` exactly
when the unmigrated count, the orphaned-reference count and the sample
mismatch count are all zero; the sample size bound is `min 10 migrated`;
and any shipment referencing a non-existent vessel forces
`orphanedVesselIds ≥ 1` and the status `ISSUES_FOUND`. -/
theorem verify_status_characterization (st : Store) (sample : List Shipment)
    (hsub : List.Sublist sample (st.shipments.filter sampleMatchFilter)) :
    ((verifyMigration st sample).status = "PASSED" ↔
      ((verifyMigration st sample).unmigratedShipments = 0 ∧
       (verifyMigration st sample).orphanedVesselIds = 0 ∧
       (verifyMigration st sample).mismatches = 0)) ∧
    (verifyMigration st sample).samplesChecked =
      Nat.min 10 (verifyMigration st sample).migratedShipments ∧
    (∀ s ∈ st.shipments, ∀ i, s.vesselId = some (some i) →
      (∀ v ∈ st.vessels, ¬ v.vid = i) →
      1 ≤ (verifyMigration st sample).orphanedVesselIds ∧
        (verifyMigration st sample).status = "ISSUES_FOUND") := by
  refine ⟨?_, rfl, ?_⟩
  · exact passed_iff_aux _ _ _
  · intro s hs i hvid hnov
    have himem : i ∈ migratedIds st := by
      unfold migratedIds
      refine List.mem_filterMap.mpr ⟨s, List.mem_filter.mpr ⟨hs, ?_⟩, ?_⟩
      · simp [isMigrated, hvid]
      · simp [hvid]
    have horph : i ∈ orphanedIds st := by
      unfold orphanedIds
      refine List.mem_filter.mpr ⟨himem, ?_⟩
      simp only [Bool.not_eq_eq_eq_not, Bool.not_true, List.any_eq_false]
      intro v hv
      simpa using hnov v hv
    have hlen : 1 ≤ (orphanedIds st).length := List.length_pos_of_mem horph
    constructor
    · exact hlen
    · simp only [verifyMigration]
      rw [if_neg]
      intro hb
      simp only [Bool.and_eq_true, beq_iff_eq] at hb
      omega

theorem verify_status_characterization_witness :
    1 ≤ (verifyMigration stW6
        (stW6.shipments.filter sampleMatchFilter)).orphanedVesselIds ∧
      (verifyMigration stW6
        (stW6.shipments.filter sampleMatchFilter)).status = "ISSUES_FOUND" :=
  (verify_status_characterization stW6
    (stW6.shipments.filter sampleMatchFilter)
    (List.Sublist.refl _)).2.2 sW6 (by decide) 99 (by decide) (by decide)

end Migration
